import Mathlib

/-!
# Verification of the simple-streams core (Reader / Writer / Transformer)

Shallow embedding of `src/simple-streams.ts`.  JavaScript values flowing
through the streams are modelled by `JSVal`; the external
`LimitedBlockingQueue` dependency is modelled from its contract (spec §6:
bounded FIFO, blocking push/pull, close with optional flush of the
remaining items).  Promise-based control flow is modelled by explicit
three-way outcomes (`done` / `blocked` / `failed`) and by event traces for
the Writer's serialization queue.
-/

set_option maxHeartbeats 1000000

namespace SimpleStreams

/-- A JavaScript value, as far as the streams code distinguishes them:
`undefined`, `null`, numbers, strings, and `Error` objects carrying a
message (the code inspects `e.message`). -/
inductive JSVal where
  | undef
  | null
  | num (n : Nat)
  | str (s : String)
  | errMsg (m : String)
  deriving DecidableEq, Repr

/-- Rendering used by JavaScript string concatenation `"(" + chunk + ")"`. -/
def JSVal.jstr : JSVal → String
  | .undef => "undefined"
  | .null => "null"
  | .num n => toString n
  | .str s => s
  | .errMsg m => m

/-- A chunk travelling through a Reader's bounded queue: either a value or
the `EOF` sentinel symbol pushed by `controller.close()`. -/
inductive Chunk where
  | val (v : JSVal)
  | eofC
  deriving DecidableEq, Repr

/-- The bounded blocking queue (external collaborator, modelled from its
contract): fixed capacity, FIFO buffer, closable. -/
structure BQueue where
  capacity : Nat
  buf : List Chunk
  closed : Bool
  deriving DecidableEq, Repr

/-- Outcome of a (possibly blocking) `push`. -/
inductive PushRes where
  | accepted (q : BQueue)
  | blockedP
  | rejectedP
  deriving DecidableEq, Repr

/-- `push`: rejects if the queue is closed, blocks while at capacity,
otherwise appends the item. -/
def BQueue.push (q : BQueue) (c : Chunk) : PushRes :=
  if q.closed then .rejectedP
  else if q.buf.length < q.capacity then .accepted { q with buf := q.buf ++ [c] }
  else .blockedP

/-- `close(reason?, flushRemaining?)`: stops future pushes; in flush mode
already-buffered items stay deliverable, otherwise they are discarded. -/
def BQueue.closeQ (q : BQueue) (flushRemaining : Bool) : BQueue :=
  if flushRemaining then { q with closed := true }
  else { q with closed := true, buf := [] }

/-- Reader state: the `closed` / `isError` / `error` fields of the `Reader`
class, whether `pullAlg` is still set (`pullActive`), and the owned queue. -/
structure RState where
  closed : Bool
  isError : Bool
  error : JSVal
  pullActive : Bool
  q : BQueue
  deriving DecidableEq, Repr

/-- A freshly constructed Reader with the given buffer capacity and with
`pullAlg` present iff the source supplied a `pull` hook. -/
def initR (cap : Nat) (hasPull : Bool) : RState :=
  { closed := false, isError := false, error := .undef, pullActive := hasPull
    q := { capacity := cap, buf := [], closed := false } }

/-- `controller.error(reason)`: no-op once closed or errored; otherwise
store the reason, clear the pull-hook, and close the queue discarding the
buffered items (`buffer.close(reason)`, no flush). -/
def ctrlError (s : RState) (r : JSVal) : RState :=
  if s.closed || s.isError then s
  else { s with isError := true, error := r, pullActive := false
                q := s.q.closeQ false }

/-- Outcome of one producer-side controller call that returns a promise:
it settles (`done`), suspends on a full queue (`blocked`, with the state
changes made before the suspension), or rejects (`failed`). -/
inductive PRes where
  | done (s : RState)
  | blocked (s : RState)
  | failed (s : RState)
  deriving DecidableEq, Repr

/-- `controller.enqueue(chunk)`: rejects if the Reader is closed, otherwise
forwards to the queue's blocking push. -/
def ctrlEnqueue (s : RState) (v : JSVal) : PRes :=
  if s.closed then .failed s
  else match s.q.push (.val v) with
    | .accepted q' => .done { s with q := q' }
    | .blockedP => .blocked s
    | .rejectedP => .failed s

/-- `controller.close()`: no-op if already closed; otherwise clear the
pull-hook, push the `EOF` sentinel, and — once the push is accepted — mark
the Reader closed and close the queue in flush mode. -/
def ctrlClose (s : RState) : PRes :=
  if s.closed then .done s
  else
    let s1 := { s with pullActive := false }
    match s1.q.push .eofC with
    | .accepted q' => .done { s1 with closed := true, q := q'.closeQ true }
    | .blockedP => .blocked s1
    | .rejectedP => .failed s1

/-- `Reader.close()`: mark closed and close the queue (no flush); the
pull-hook is NOT cleared here. -/
def readerClose (s : RState) : RState :=
  { s with closed := true, q := s.q.closeQ false }

/-- Result of one `read()` call: a value, end-of-sequence (`done: true`),
a rejection with the stored error, or suspension on the empty open
queue. -/
inductive RdRes where
  | value (v : JSVal)
  | finished
  | errored (e : JSVal)
  | blocked
  deriving DecidableEq, Repr

/-- `Reader.read()`: pull from the queue; `EOF` maps to finished (marking
the Reader closed), a closed-and-drained queue maps to finished unless an
error is stored, in which case the exact stored reason is rethrown. -/
def readStep (s : RState) : RdRes × RState :=
  match s.q.buf with
  | c :: rest =>
    match c with
    | .eofC => (.finished, { s with closed := true, q := { s.q with buf := rest } })
    | .val v => (.value v, { s with q := { s.q with buf := rest } })
  | [] =>
    if s.q.closed then
      if s.isError then (.errored s.error, s) else (.finished, s)
    else (.blocked, s)

/-- A producer-side action performed through the controller. -/
inductive PAct where
  | enq (v : JSVal)
  | closeA
  | errorA (r : JSVal)
  deriving DecidableEq, Repr

/-- Apply one producer action to the Reader state. -/
def applyP (s : RState) : PAct → PRes
  | .enq v => ctrlEnqueue s v
  | .closeA => ctrlClose s
  | .errorA r => .done (ctrlError s r)

/-- Run a producer script (a producer that awaits each controller call in
order) as far as it can go: stop with the remaining script when an action
blocks on the full queue, abandon the rest when an action rejects. -/
def runProducer : List PAct → RState → List PAct × RState
  | [], s => ([], s)
  | a :: rest, s =>
    match applyP s a with
    | .done s' => runProducer rest s'
    | .blocked s' => (a :: rest, s')
    | .failed s' => ([], s')

/-- A Reader together with the still-pending part of its producer script. -/
structure Sy where
  s : RState
  script : List PAct
  deriving DecidableEq, Repr

/-- A fresh Reader driven by the given producer script. -/
def initSys (cap : Nat) (script : List PAct) : Sy :=
  { s := initR cap false, script := script }

/-- One consumer `read()` against the running system: the producer first
runs as far as the bounded queue admits, then the read pulls. -/
def sysRead (sys : Sy) : RdRes × Sy :=
  let (scr, s) := runProducer sys.script sys.s
  let (r, s') := readStep s
  (r, { s := s', script := scr })

/-- The result of the `(i+1)`-th sequential `read()` (0-indexed). -/
def readIdx (sys : Sy) : Nat → RdRes
  | 0 => (sysRead sys).1
  | n + 1 => readIdx (sysRead sys).2 n

/-- One invocation of the source's `pull` hook: the controller calls it
performs in order, whether its returned promise resolves, and the
rejection reason when it rejects (dropped by the Reader's loop). -/
structure PullInv where
  acts : List PAct
  resolves : Bool
  reason : JSVal
  deriving Repr

/-- Outcome of running one pull invocation: its promise resolved, it
rejected, or it is still suspended on a blocking controller call. -/
inductive InvOut where
  | resolved (s : RState)
  | rejectedI (s : RState)
  | stalled (s : RState)
  deriving DecidableEq, Repr

/-- Run the controller calls a pull invocation awaits in order. -/
def runActs : List PAct → RState → InvOut
  | [], s => .resolved s
  | a :: rest, s =>
    match applyP s a with
    | .done s' => runActs rest s'
    | .blocked s' => .stalled s'
    | .failed s' => .rejectedI s'

/-- Run one pull invocation to its promise outcome. -/
def runInv (inv : PullInv) (s : RState) : InvOut :=
  match runActs inv.acts s with
  | .resolved s' => if inv.resolves then .resolved s' else .rejectedI s'
  | o => o

/-- `Reader._pullIfNeeded`: while `pullAlg` is set, invoke `pull` and
re-arm on resolution; a rejected pull has no handler, so the loop simply
stops with the Reader state untouched by the rejection. -/
def pullLoop : List PullInv → RState → RState
  | [], s => s
  | inv :: rest, s =>
    if s.pullActive then
      match runInv inv s with
      | .resolved s' => pullLoop rest s'
      | .rejectedI s' => s'
      | .stalled s' => s'
    else s

/-- `Reader.close()` including its promise outcome: the state update never
rejects by itself; the returned promise rejects exactly when the source's
`cancel` hook (awaited last) rejects. -/
def readerCloseRun (s : RState) (cancelOutcome : Except JSVal Unit) :
    Except JSVal Unit × RState :=
  (cancelOutcome, readerClose s)

/-- Outcome a Writer caller's `write` promise settles with. -/
inductive WOut where
  | fulfilled
  | rejectedW (e : JSVal)
  deriving DecidableEq, Repr

/-- `this.error ?? new Error("Writer is aborted")`: a nullish stored error
is replaced by a fresh generic Error. -/
def orAborted (e : JSVal) : JSVal :=
  match e with
  | .undef => .errMsg "Writer is aborted"
  | .null => .errMsg "Writer is aborted"
  | e => e

/-- Writer state: the closed/error flags, the sink write currently in
flight (`writePending` with its caller and chunk), the FIFO queue of
waiting `write` calls (`waitingWrites`), the chunks handed to the sink's
`write` hook in order, settled caller outcomes in settlement order, the
reasons handed to the sink `abort` hook, and how often the sink `close`
hook ran.  Callers are numbered by arrival. -/
structure WState where
  isClosed : Bool
  isError : Bool
  error : JSVal
  inFlight : Option (Nat × JSVal)
  waiting : List (Nat × JSVal)
  settled : List (Nat × WOut)
  sinkLog : List JSVal
  abortLog : List JSVal
  closeLog : Nat
  nextId : Nat
  deriving DecidableEq, Repr

/-- A freshly constructed (and started) Writer. -/
def initW : WState :=
  { isClosed := false, isError := false, error := .undef, inFlight := none
    waiting := [], settled := [], sinkLog := [], abortLog := []
    closeLog := 0, nextId := 0 }

/-- `Writer.writeImpl(chunk)` on behalf of caller `i`: reject if the
Writer is closed, then if it is aborted/errored; otherwise mark the write
pending and invoke the sink's `write` hook with the chunk. -/
def writeImpl (w : WState) (i : Nat) (c : JSVal) : WState :=
  if w.isClosed then
    { w with settled := w.settled ++ [(i, .rejectedW (.str "Writer is closed"))] }
  else if w.isError then
    { w with settled := w.settled ++ [(i, .rejectedW (orAborted w.error))] }
  else { w with sinkLog := w.sinkLog ++ [c], inFlight := some (i, c) }

/-- A Writer event: a `write(chunk)` call arriving, or the settlement of
the sink write currently in flight (`ok = true` means it resolved). -/
inductive WEv where
  | call (c : JSVal)
  | settle (ok : Bool) (r : JSVal)
  deriving DecidableEq, Repr

/-- One step of `Writer.write`'s serialization machinery: a call while a
write is pending queues FIFO, otherwise it runs `writeImpl` directly; a
settlement resolves the in-flight caller's promise with the sink outcome
and releases exactly the first waiting write, which then runs
`writeImpl`. -/
def stepW (w : WState) : WEv → WState
  | .call c =>
    let w0 := { w with nextId := w.nextId + 1 }
    if w.inFlight.isSome then { w0 with waiting := w0.waiting ++ [(w.nextId, c)] }
    else writeImpl w0 w.nextId c
  | .settle ok r =>
    match w.inFlight with
    | none => w
    | some (i, _) =>
      let w1 := { w with
        inFlight := none
        settled := w.settled ++ [(i, if ok then WOut.fulfilled else WOut.rejectedW r)] }
      match w1.waiting with
      | [] => w1
      | (i2, c2) :: rest => writeImpl { w1 with waiting := rest } i2 c2

/-- Run a sequence of Writer events. -/
def runW : List WEv → WState → WState
  | [], w => w
  | e :: rest, w => runW rest (stepW w e)

/-- `Writer.close()`: mark Closed and invoke the sink `close` hook. -/
def wclose (w : WState) : WState :=
  { w with isClosed := true, closeLog := w.closeLog + 1 }

/-- `Writer.abort(reason)`: mark Aborted with the stored reason, invoke
the sink `abort` hook with it, and return the reason. -/
def wabort (w : WState) (r : JSVal) : JSVal × WState :=
  (r, { w with isError := true, error := r, abortLog := w.abortLog ++ [r] })

/-- The chunks passed to `write` calls in a trace, in call order. -/
def calledChunks : List WEv → List JSVal
  | [] => []
  | .call c :: rest => c :: calledChunks rest
  | .settle _ _ :: rest => calledChunks rest

/-- The number of sink-write settlements in a trace. -/
def settleCount : List WEv → Nat
  | [] => 0
  | .call _ :: rest => settleCount rest
  | .settle _ _ :: rest => settleCount rest + 1

/-- 1 if a sink write is in flight, else 0. -/
def nfW (w : WState) : Nat := if w.inFlight.isSome then 1 else 0

/-- The caller outcome corresponding to a sink write settlement. -/
def outc (ok : Bool) (r : JSVal) : WOut :=
  if ok then .fulfilled else .rejectedW r

/-- Result of a `pipeTo` run: the Reader finished and the Writer was
closed, an error was rethrown to the caller, or the fuel ran out (the
loop is still suspended). -/
inductive PipeRes where
  | finishedP
  | thrown (e : JSVal)
  | outOfFuel
  deriving DecidableEq, Repr

/-- The values delivered by up to `fuel` sequential reads, paired with the
first non-value outcome reached (or `blocked` when the fuel ran out). -/
def readTrace : Nat → Sy → List JSVal × RdRes
  | 0, _ => ([], .blocked)
  | fuel + 1, sys =>
    match sysRead sys with
    | (.value v, sys') =>
      let p := readTrace fuel sys'
      (v :: p.1, p.2)
    | (r, _) => ([], r)

/-- `Reader.pipeTo(destination)`: loop — `read()`; on a value, await
`destination.write(value)` before the next read (the write call on the
idle Writer invokes the sink at once and its settlement is awaited, so
writes are strictly sequential); on done, `destination.close()` and
return; on a rejected read or write, `destination.abort(e)` and rethrow
`e`.  The sink behavior decides each settlement. -/
def pipeToRun : Nat → Sy → (JSVal → Bool × JSVal) → WState → PipeRes × Sy × WState
  | 0, sys, _, w => (.outOfFuel, sys, w)
  | fuel + 1, sys, sink, w =>
    match sysRead sys with
    | (.value v, sys') =>
      let w1 := stepW w (.call v)
      let o := sink v
      let w2 := stepW w1 (.settle o.1 o.2)
      if o.1 then pipeToRun fuel sys' sink w2
      else (.thrown o.2, sys', (wabort w2 o.2).2)
    | (.finished, sys') => (.finishedP, sys', wclose w)
    | (.errored e, sys') => (.thrown e, sys', (wabort w e).2)
    | (.blocked, sys') => (.outOfFuel, sys', w)

/-- The Transformer writer's `write` hook: invoke the user `transform`,
which performs controller calls against the Transformer's own Reader. -/
def transformerWrite (tf : JSVal → List PAct) (t : RState) (c : JSVal) : InvOut :=
  runActs (tf c) t

/-- The Transformer writer's `close` hook: await the user `flush`, then
`controller.close()` on the Transformer's Reader. -/
def transformerClose (flushActs : List PAct) (t : RState) : InvOut :=
  match runActs flushActs t with
  | .resolved t' =>
    match ctrlClose t' with
    | .done t2 => .resolved t2
    | .blocked t2 => .stalled t2
    | .failed t2 => .rejectedI t2
  | o => o

/-- The Transformer writer's `abort` hook: `controller.error(reason)` on
the Transformer's Reader. -/
def transformerAbort (t : RState) (r : JSVal) : RState :=
  ctrlError t r

/-- The pump loop of `pipeThrough` feeding one Transformer: `read()`; on a
value, await the Transformer writer's `write` (the user transform); on
done, the Transformer writer's `close`; on a rejected read, its `abort`. -/
def pumpThrough : Nat → Sy → (JSVal → List PAct) → List PAct → RState → Option RState
  | 0, _, _, _, _ => none
  | fuel + 1, sys, tf, fl, t =>
    match sysRead sys with
    | (.value v, sys') =>
      match transformerWrite tf t v with
      | .resolved t' => pumpThrough fuel sys' tf fl t'
      | _ => none
    | (.finished, _) =>
      match transformerClose fl t with
      | .resolved t' => some t'
      | _ => none
    | (.errored e, _) => some (transformerAbort t e)
    | (.blocked, _) => none

/-- The parenthesis-wrapping transform: `controller.enqueue("(" + chunk + ")")`. -/
def parenActs (v : JSVal) : List PAct :=
  [.enq (.str ("(" ++ v.jstr ++ ")"))]

/-- One `pipeThrough` stage: pump the given Reader system into a fresh
Transformer (whose Reader has the default capacity 100 and no source) and
continue from the Transformer's Reader. -/
def chainStage (fuel : Nat) (tf : JSVal → List PAct) (sys : Sy) : Option Sy :=
  (pumpThrough fuel sys tf [] (initR 100 false)).map fun t => { s := t, script := [] }

/-- Reader of 1, 2, 3 piped through two chained parenthesis-wrapping
Transformers into a collecting Writer (`pipeTo` with an always-resolving
sink). -/
def twoParenPipeline : Option (PipeRes × Sy × WState) :=
  match chainStage 10 parenActs
      (initSys 100 ([JSVal.num 1, .num 2, .num 3].map .enq ++ [.closeA])) with
  | none => none
  | some sys1 =>
    match chainStage 10 parenActs sys1 with
    | none => none
    | some sys2 => some (pipeToRun 10 sys2 (fun _ => (true, .undef)) initW)

/-! ## The enqueue-then-close lifecycle (claim C1)

Phase invariant for a Reader whose producer enqueues a list of items and
then calls `controller.close()`: `items` are the values not yet delivered
to `read()`. -/

/-- Phase A: the `EOF` sentinel has not been accepted yet; some of the
undelivered items sit in the queue, the rest are still in the script. -/
def formA (sys : Sy) (items : List JSVal) : Prop :=
  ∃ buffered pending : List JSVal,
    items = buffered ++ pending ∧
    sys.s.q.buf = buffered.map .val ∧
    sys.script = pending.map .enq ++ [.closeA] ∧
    sys.s.closed = false ∧ sys.s.isError = false ∧
    sys.s.q.closed = false ∧
    buffered.length ≤ sys.s.q.capacity ∧
    1 ≤ sys.s.q.capacity

/-- Phase B: `EOF` accepted; all undelivered items precede it in the
queue, which is closed in flush mode. -/
def formB (sys : Sy) (items : List JSVal) : Prop :=
  sys.s.q.buf = items.map .val ++ [.eofC] ∧ sys.script = [] ∧
  sys.s.closed = true ∧ sys.s.isError = false ∧ sys.s.q.closed = true

/-- Phase C: `EOF` has been consumed; nothing remains. -/
def formC (sys : Sy) (items : List JSVal) : Prop :=
  items = [] ∧ sys.s.q.buf = [] ∧ sys.script = [] ∧
  sys.s.isError = false ∧ sys.s.q.closed = true

/-- Lifecycle invariant for the enqueue-then-close scenario. -/
def WF1 (sys : Sy) (items : List JSVal) : Prop :=
  formA sys items ∨ formB sys items ∨ formC sys items

theorem runProducer_drain (pending : List JSVal) :
    ∀ (buffered : List JSVal) (s : RState),
    s.q.buf = buffered.map .val → s.closed = false → s.isError = false →
    s.q.closed = false → buffered.length ≤ s.q.capacity → 1 ≤ s.q.capacity →
    (∃ buffered' pending' : List JSVal,
      buffered' ++ pending' = buffered ++ pending ∧
      (runProducer (pending.map .enq ++ [.closeA]) s).1
        = pending'.map .enq ++ [.closeA] ∧
      (runProducer (pending.map .enq ++ [.closeA]) s).2.q.buf = buffered'.map .val ∧
      (runProducer (pending.map .enq ++ [.closeA]) s).2.closed = false ∧
      (runProducer (pending.map .enq ++ [.closeA]) s).2.isError = false ∧
      (runProducer (pending.map .enq ++ [.closeA]) s).2.q.closed = false ∧
      buffered'.length = (runProducer (pending.map .enq ++ [.closeA]) s).2.q.capacity ∧
      1 ≤ (runProducer (pending.map .enq ++ [.closeA]) s).2.q.capacity) ∨
    ((runProducer (pending.map .enq ++ [.closeA]) s).2.q.buf
        = (buffered ++ pending).map .val ++ [.eofC] ∧
      (runProducer (pending.map .enq ++ [.closeA]) s).1 = [] ∧
      (runProducer (pending.map .enq ++ [.closeA]) s).2.closed = true ∧
      (runProducer (pending.map .enq ++ [.closeA]) s).2.isError = false ∧
      (runProducer (pending.map .enq ++ [.closeA]) s).2.q.closed = true) := by
  induction pending with
  | nil =>
    rintro buffered ⟨cl, ie, er, pa, cap, qb, qcl⟩ hbuf hcl herr hqcl hlen hcap
    simp only at hbuf hcl herr hqcl hlen hcap
    subst hbuf; subst hcl; subst herr; subst hqcl
    simp only [List.map_nil, List.nil_append, runProducer, applyP, ctrlClose,
      Bool.false_eq_true, if_false, BQueue.push, BQueue.closeQ, List.length_map] at hlen ⊢
    rcases Nat.lt_or_ge buffered.length cap with hlt | hge
    · -- EOF accepted
      simp only [hlt, if_true, if_pos hlt, runProducer]
      right
      refine ⟨by simp, ?_, ?_, ?_, ?_⟩ <;> trivial
    · -- EOF blocked: queue full
      have hnl : ¬ buffered.length < cap := Nat.not_lt.mpr hge
      simp only [if_neg hnl]
      left
      have hfull : buffered.length = cap := Nat.le_antisymm hlen hge
      refine ⟨buffered, [], by simp, ?_, ?_, ?_, ?_, ?_, hfull, hcap⟩ <;> trivial
  | cons p ps ih =>
    rintro buffered ⟨cl, ie, er, pa, cap, qb, qcl⟩ hbuf hcl herr hqcl hlen hcap
    simp only at hbuf hcl herr hqcl hlen hcap
    subst hbuf; subst hcl; subst herr; subst hqcl
    simp only [List.map_cons, List.cons_append, runProducer, applyP, ctrlEnqueue,
      Bool.false_eq_true, if_false, BQueue.push, List.length_map] at hlen ⊢
    rcases Nat.lt_or_ge buffered.length cap with hlt | hge
    · -- item accepted; recurse
      simp only [if_pos hlt]
      have hres := ih (buffered ++ [p])
        { closed := false, isError := false, error := er, pullActive := pa
          q := { capacity := cap, buf := buffered.map .val ++ [.val p], closed := false } }
        (by simp) rfl rfl rfl (by simpa using Nat.succ_le_of_lt hlt) hcap
      rw [List.append_cons]
      exact hres
    · -- item blocked: queue full, producer suspends here
      have hnl : ¬ buffered.length < cap := Nat.not_lt.mpr hge
      simp only [if_neg hnl]
      left
      have hfull : buffered.length = cap := Nat.le_antisymm hlen hge
      refine ⟨buffered, p :: ps, rfl, ?_, ?_, ?_, ?_, ?_, hfull, hcap⟩ <;> trivial


theorem sysRead_eq (sys : Sy) :
    sysRead sys = ((readStep (runProducer sys.script sys.s).2).1,
      { s := (readStep (runProducer sys.script sys.s).2).2
        script := (runProducer sys.script sys.s).1 }) := by
  unfold sysRead
  rcases hrp : runProducer sys.script sys.s with ⟨scr, s2⟩
  rcases hrs : readStep s2 with ⟨r, s3⟩
  simp [hrp, hrs]

theorem sysRead_WF1 (sys : Sy) (items : List JSVal) (h : WF1 sys items) :
    (items = [] → (sysRead sys).1 = .finished ∧ WF1 (sysRead sys).2 []) ∧
    (∀ x rest, items = x :: rest →
      (sysRead sys).1 = .value x ∧ WF1 (sysRead sys).2 rest) := by
  rcases h with ⟨buffered, pending, hitems, hbuf, hscript, hcl, herr, hqcl, hlen, hcap⟩
    | ⟨hbufB, hscrB, hclB, herrB, hqclB⟩ | ⟨hnilC, hbufC, hscrC, herrC, hqclC⟩
  · -- phase A: drain the producer first
    have hdrain := runProducer_drain pending buffered sys.s hbuf hcl herr hqcl hlen hcap
    rw [sysRead_eq, hscript]
    rcases hdrain with ⟨b', p', hsplit, hscr', hbuf', hcl', herr', hqcl', hfull, hcap'⟩
      | ⟨hbufB, hscrB, hclB, herrB, hqclB⟩
    · -- producer suspended on a full queue
      rcases b' with _ | ⟨b, bs⟩
      · exfalso
        rw [← hfull] at hcap'
        simp at hcap'
      · have hread : readStep (runProducer (pending.map .enq ++ [.closeA]) sys.s).2
            = (.value b,
               { (runProducer (pending.map .enq ++ [.closeA]) sys.s).2 with
                  q := { (runProducer (pending.map .enq ++ [.closeA]) sys.s).2.q with
                          buf := bs.map .val } }) := by
          simp [readStep, hbuf']
        constructor
        · intro hnil
          exfalso
          rw [hitems, ← hsplit] at hnil
          simp at hnil
        · intro x rest hxr
          rw [hitems, ← hsplit] at hxr
          simp only [List.cons_append] at hxr
          obtain ⟨hx, hrest⟩ := List.cons.inj hxr
          refine ⟨by simp [hread, hx], ?_⟩
          left
          refine ⟨bs, p', hrest.symm, ?_, ?_, ?_, ?_, ?_, ?_, ?_⟩
          · simp [hread]
          · simpa using hscr'
          · simpa [hread] using hcl'
          · simpa [hread] using herr'
          · simpa [hread] using hqcl'
          · simp only [hread]
            have hfull' : bs.length + 1
                = (runProducer (pending.map .enq ++ [.closeA]) sys.s).2.q.capacity := by
              simpa using hfull
            omega
          · simpa [hread] using hcap'
    · -- producer finished: EOF accepted, phase B reached
      rcases hbp : buffered ++ pending with _ | ⟨x0, rest0⟩
      · -- no items left: EOF is the head of the queue
        rw [hbp] at hbufB
        simp only [List.map_nil, List.nil_append] at hbufB
        have hread : readStep (runProducer (pending.map .enq ++ [.closeA]) sys.s).2
            = (.finished,
               { (runProducer (pending.map .enq ++ [.closeA]) sys.s).2 with
                  closed := true
                  q := { (runProducer (pending.map .enq ++ [.closeA]) sys.s).2.q with
                          buf := [] } }) := by
          simp [readStep, hbufB]
        constructor
        · intro _
          refine ⟨by simp [hread], ?_⟩
          right; right
          exact ⟨rfl, by simp [hread], by simpa using hscrB,
            by simpa [hread] using herrB, by simpa [hread] using hqclB⟩
        · intro x rest hxr
          exfalso
          rw [hitems, hbp] at hxr
          simp at hxr
      · -- a value is at the head, EOF behind the remaining values
        rw [hbp] at hbufB
        simp only [List.map_cons, List.cons_append] at hbufB
        have hread : readStep (runProducer (pending.map .enq ++ [.closeA]) sys.s).2
            = (.value x0,
               { (runProducer (pending.map .enq ++ [.closeA]) sys.s).2 with
                  q := { (runProducer (pending.map .enq ++ [.closeA]) sys.s).2.q with
                          buf := rest0.map .val ++ [.eofC] } }) := by
          simp [readStep, hbufB]
        constructor
        · intro hnil
          exfalso
          rw [hitems, hbp] at hnil
          simp at hnil
        · intro x rest hxr
          rw [hitems, hbp] at hxr
          obtain ⟨hx, hrest⟩ := List.cons.inj hxr
          refine ⟨by simp [hread, hx], ?_⟩
          right; left
          exact ⟨by simp [hread, hrest], by simpa using hscrB,
            by simpa [hread] using hclB, by simpa [hread] using herrB,
            by simpa [hread] using hqclB⟩
  · -- phase B: nothing pending on the producer side
    rw [sysRead_eq, hscrB]
    simp only [runProducer]
    rcases items with _ | ⟨x0, rest0⟩
    · simp only [List.map_nil, List.nil_append] at hbufB
      have hread : readStep sys.s
          = (.finished,
             { sys.s with
                closed := true
                q := { sys.s.q with buf := [] } }) := by
        simp [readStep, hbufB]
      refine ⟨fun _ => ⟨by simp [hread], ?_⟩, fun x rest hxr => by simp at hxr⟩
      right; right
      exact ⟨rfl, by simp [hread], rfl, by simpa [hread] using herrB,
        by simpa [hread] using hqclB⟩
    · simp only [List.map_cons, List.cons_append] at hbufB
      have hread : readStep sys.s
          = (.value x0, { sys.s with
              q := { sys.s.q with buf := rest0.map .val ++ [.eofC] } }) := by
        simp [readStep, hbufB]
      refine ⟨fun hnil => by simp at hnil, fun x rest hxr => ?_⟩
      obtain ⟨hx, hrest⟩ := List.cons.inj hxr
      refine ⟨by simp [hread, hx], ?_⟩
      right; left
      exact ⟨by simp [hread, hrest], rfl, by simpa [hread] using hclB,
        by simpa [hread] using herrB, by simpa [hread] using hqclB⟩
  · -- phase C: terminal, every read is finished
    subst hnilC
    rw [sysRead_eq, hscrC]
    simp only [runProducer]
    have hread : readStep sys.s = (.finished, sys.s) := by
      simp [readStep, hbufC, hqclC, herrC]
    refine ⟨fun _ => ⟨by simp [hread], ?_⟩, fun x rest hxr => by simp at hxr⟩
    right; right
    exact ⟨rfl, by simp [hread, hbufC], rfl, by simpa [hread] using herrC,
      by simpa [hread] using hqclC⟩

theorem readIdx_WF1 (i : Nat) : ∀ (sys : Sy) (items : List JSVal), WF1 sys items →
    readIdx sys i
      = if h : i < items.length then .value (items.get ⟨i, h⟩) else .finished := by
  induction i with
  | zero =>
    intro sys items h
    rcases items with _ | ⟨x, rest⟩
    · simpa [readIdx] using ((sysRead_WF1 sys [] h).1 rfl).1
    · simpa [readIdx] using ((sysRead_WF1 sys (x :: rest) h).2 x rest rfl).1
  | succ n ih =>
    intro sys items h
    rcases items with _ | ⟨x, rest⟩
    · have hstep := (sysRead_WF1 sys [] h).1 rfl
      have := ih (sysRead sys).2 [] hstep.2
      simpa [readIdx] using this
    · have hstep := (sysRead_WF1 sys (x :: rest) h).2 x rest rfl
      have := ih (sysRead sys).2 rest hstep.2
      simp only [readIdx, this]
      by_cases hn : n < rest.length
      · simp [hn, Nat.succ_lt_succ hn]
      · have : ¬ n + 1 < (x :: rest).length := by
          simpa [Nat.succ_lt_succ_iff] using hn
        simp [hn, this]

/-- C1: for a Reader whose producer enqueues the items of `xs` through
`controller.enqueue` (awaiting each) and then calls `controller.close()`,
the first `xs.length` sequential `read()` calls deliver exactly the items
of `xs` in enqueue order, the next `read()` resolves finished
(`done: true`), and every further `read()` also resolves finished. -/
theorem enqueue_then_close_reads_in_order (xs : List JSVal) (cap : Nat)
    (hcap : 1 ≤ cap) :
    (∀ i (h : i < xs.length),
      readIdx (initSys cap (xs.map .enq ++ [.closeA])) i = .value (xs.get ⟨i, h⟩)) ∧
    (∀ j, xs.length ≤ j →
      readIdx (initSys cap (xs.map .enq ++ [.closeA])) j = .finished) := by
  have hwf : WF1 (initSys cap (xs.map .enq ++ [.closeA])) xs :=
    Or.inl ⟨[], xs, by simp, rfl, rfl, rfl, rfl, rfl, by simp [initSys, initR],
      by simpa [initSys, initR] using hcap⟩
  constructor
  · intro i h
    rw [readIdx_WF1 i _ xs hwf]
    simp [h]
  · intro j hj
    rw [readIdx_WF1 j _ xs hwf]
    simp [Nat.not_lt.mpr hj]

/-- Witness for C1 at a concrete input: two items, buffer capacity 1. -/
theorem enqueue_then_close_reads_in_order_witness :
    readIdx (initSys 1 ([JSVal.num 1, JSVal.num 2].map .enq ++ [.closeA])) 0
        = .value (.num 1) ∧
    readIdx (initSys 1 ([JSVal.num 1, JSVal.num 2].map .enq ++ [.closeA])) 1
        = .value (.num 2) ∧
    readIdx (initSys 1 ([JSVal.num 1, JSVal.num 2].map .enq ++ [.closeA])) 2
        = .finished ∧
    readIdx (initSys 1 ([JSVal.num 1, JSVal.num 2].map .enq ++ [.closeA])) 5
        = .finished :=
  ⟨(enqueue_then_close_reads_in_order [.num 1, .num 2] 1 (by decide)).1 0 (by decide),
   (enqueue_then_close_reads_in_order [.num 1, .num 2] 1 (by decide)).1 1 (by decide),
   (enqueue_then_close_reads_in_order [.num 1, .num 2] 1 (by decide)).2 2 (by decide),
   (enqueue_then_close_reads_in_order [.num 1, .num 2] 1 (by decide)).2 5 (by decide)⟩

/-- C2: `controller.error(reason)` on a non-terminal Reader discards every
item already enqueued but not yet delivered, stores exactly `reason`, and
makes every pending and every future `read()` reject with exactly
`reason` (the post-error state is a fixed point of `read()`). -/
theorem error_rejects_pending_and_future_reads (s : RState) (r : JSVal)
    (hcl : s.closed = false) (herr : s.isError = false) :
    (ctrlError s r).q.buf = [] ∧
    (ctrlError s r).error = r ∧
    readStep (ctrlError s r) = (.errored r, ctrlError s r) := by
  simp [ctrlError, hcl, herr, BQueue.closeQ, readStep]

/-- Witness for C2: one item is enqueued right before the error and is
discarded, not delivered; the read rejects with the error value itself. -/
theorem error_rejects_pending_and_future_reads_witness :
    (ctrlError (runProducer [.enq (.num 1)] (initR 2 false)).2 (.str "boom")).q.buf = [] ∧
    (ctrlError (runProducer [.enq (.num 1)] (initR 2 false)).2 (.str "boom")).error
      = .str "boom" ∧
    readStep (ctrlError (runProducer [.enq (.num 1)] (initR 2 false)).2 (.str "boom"))
      = (.errored (.str "boom"),
         ctrlError (runProducer [.enq (.num 1)] (initR 2 false)).2 (.str "boom")) :=
  error_rejects_pending_and_future_reads
    (runProducer [.enq (.num 1)] (initR 2 false)).2 (.str "boom") (by decide) (by decide)

/-- C5 (counterexample): `Reader.close()` does NOT clear the pull-hook
reference: on a fresh Reader with a pull hook, `pullAlg` is still set
after `close()`, so the claim that all three termination paths clear it
fails. -/
theorem reader_close_keeps_pull_hook :
    (readerClose (initR 2 true)).closed = true ∧
    (readerClose (initR 2 true)).pullActive = true := by decide

/-- C5 (amended): `controller.close()` and `controller.error()` clear the
pull-hook (even when the close suspends pushing `EOF`), clearing is
permanent (no operation re-sets the hook, and an inactive pull loop never
runs an invocation), and once the Reader is Closed — or its queue is
closed by `error` — `controller.enqueue` always fails.  `Reader.close()`
marks the Reader Closed (so enqueues fail) but leaves the pull-hook set. -/
theorem terminal_clears_pull_hook_and_blocks_enqueue (s : RState) (v r : JSVal)
    (hcl : s.closed = false) :
    (∀ s', ctrlClose s = .done s' ∨ ctrlClose s = .blocked s' ∨ ctrlClose s = .failed s' →
      s'.pullActive = false) ∧
    (s.isError = false → (ctrlError s r).pullActive = false) ∧
    (∀ t : RState, t.closed = true ∨ t.q.closed = true → ctrlEnqueue t v = .failed t) ∧
    (∀ t : RState, t.pullActive = false →
      ((readStep t).2.pullActive = false ∧ (ctrlError t r).pullActive = false ∧
        (readerClose t).pullActive = false ∧ (∀ invs, pullLoop invs t = t))) ∧
    (readerClose s).closed = true ∧ (readerClose s).pullActive = s.pullActive := by
  refine ⟨?_, ?_, ?_, ?_, rfl, rfl⟩
  · intro s' h
    rcases h with h | h | h <;>
    · simp only [ctrlClose, hcl, Bool.false_eq_true, if_false] at h
      rcases hp : ({ s with pullActive := false } : RState).q.push .eofC with q' | _ | _ <;>
        simp [hp] at h
      all_goals rw [← h]
  · intro herr
    simp [ctrlError, hcl, herr]
  · intro t ht
    rcases ht with ht | ht
    · simp [ctrlEnqueue, ht]
    · by_cases htc : t.closed = true
      · simp [ctrlEnqueue, htc]
      · simp only [Bool.not_eq_true] at htc
        simp [ctrlEnqueue, htc, BQueue.push, ht]
  · intro t htp
    refine ⟨?_, ?_, ?_, ?_⟩
    · unfold readStep
      rcases t.q.buf with _ | ⟨c, rest⟩
      · dsimp only
        by_cases h1 : t.q.closed = true <;> by_cases h2 : t.isError = true <;>
          simp [h1, h2, htp]
      · rcases c with v' | _ <;> simp [htp]
    · unfold ctrlError
      split <;> simp [htp]
    · simp [readerClose, htp]
    · intro invs
      cases invs with
      | nil => rfl
      | cons inv rest => simp [pullLoop, htp]

/-- Witness for C5 (amended) at a concrete Reader with a pull hook. -/
theorem terminal_clears_pull_hook_and_blocks_enqueue_witness :
    (ctrlError (initR 2 true) (.num 2)).pullActive = false ∧
    ctrlEnqueue (readerClose (initR 2 true)) (.num 1)
      = .failed (readerClose (initR 2 true)) :=
  ⟨(terminal_clears_pull_hook_and_blocks_enqueue (initR 2 true) (.num 1) (.num 2)
      rfl).2.1 rfl,
   (terminal_clears_pull_hook_and_blocks_enqueue (initR 2 true) (.num 1) (.num 2)
      rfl).2.2.1 (readerClose (initR 2 true)) (Or.inl rfl)⟩

/-- C6 (counterexample): `Reader.close()` on an already-Errored Reader does
not make subsequent reads resolve `done: true` — they keep rejecting with
the stored reason, because `read()` checks `isError` first. -/
theorem close_after_error_reads_still_reject :
    (readStep (readerClose (ctrlError (initR 2 false) (.num 7)))).1
      = .errored (.num 7) := by decide

/-- C6 (amended): `Reader.close()` is idempotent on the state, its promise
adds no rejection of its own (it rejects only if the `cancel` hook does,
so with a resolving cancel it never throws, also when repeated or after a
terminal state), and subsequent `read()` calls resolve `done: true`
provided the Reader was not already Errored; an Errored Reader's reads
keep rejecting with the stored reason. -/
theorem reader_close_idempotent_nonthrowing (s : RState) :
    readerClose (readerClose s) = readerClose s ∧
    (readerCloseRun s (.ok ())).1 = .ok () ∧
    (readerCloseRun (readerClose s) (.ok ())).1 = .ok () ∧
    (readerCloseRun (ctrlError s (.num 0)) (.ok ())).1 = .ok () ∧
    (s.isError = false → readStep (readerClose s) = (.finished, readerClose s)) := by
  refine ⟨?_, rfl, rfl, rfl, ?_⟩
  · simp [readerClose, BQueue.closeQ]
  · intro herr
    simp [readerClose, BQueue.closeQ, readStep, herr]

/-- Witness for C6 (amended) on a fresh Reader. -/
theorem reader_close_idempotent_nonthrowing_witness :
    readerClose (readerClose (initR 2 false)) = readerClose (initR 2 false) ∧
    readStep (readerClose (initR 2 false))
      = (.finished, readerClose (initR 2 false)) :=
  ⟨(reader_close_idempotent_nonthrowing (initR 2 false)).1,
   (reader_close_idempotent_nonthrowing (initR 2 false)).2.2.2.2 rfl⟩

/-- C7 (counterexample): a Reader that is already Closed (the producer
enqueued an item and completed `controller.close()`) still resolves the
next `read()` with the buffered item, not with finished or a rejection. -/
theorem read_after_closed_can_deliver_value :
    (runProducer [.enq (.num 1), .closeA] (initR 2 false)).2.closed = true ∧
    (readStep (runProducer [.enq (.num 1), .closeA] (initR 2 false)).2).1
      = .value (.num 1) := by decide

/-- C7 (amended): in a terminal state (whose queue is closed, as every
terminal transition closes it), `read()` never suspends on the queue's
blocking path: it immediately resolves with a buffered item or with
finished, or rejects with the exact stored error. -/
theorem read_after_terminal_immediate (s : RState)
    (hq : s.closed = true ∨ s.isError = true → s.q.closed = true)
    (hterm : s.closed = true ∨ s.isError = true) :
    (readStep s).1 ≠ .blocked ∧
    ((∃ v, (readStep s).1 = .value v) ∨ (readStep s).1 = .finished ∨
      (readStep s).1 = .errored s.error) := by
  have hqc := hq hterm
  unfold readStep
  rcases s.q.buf with _ | ⟨c, rest⟩
  · by_cases he : s.isError = true <;> simp [hqc, he]
  · rcases c with v | _ <;> simp

/-- Witness for C7 (amended) on an errored Reader. -/
theorem read_after_terminal_immediate_witness :
    (readStep (ctrlError (initR 2 false) (.num 7))).1 ≠ .blocked ∧
    ((∃ v, (readStep (ctrlError (initR 2 false) (.num 7))).1 = .value v) ∨
      (readStep (ctrlError (initR 2 false) (.num 7))).1 = .finished ∨
      (readStep (ctrlError (initR 2 false) (.num 7))).1
        = .errored (ctrlError (initR 2 false) (.num 7)).error) :=
  read_after_terminal_immediate (ctrlError (initR 2 false) (.num 7))
    (fun _ => by decide) (Or.inr (by decide))

/-- C10: a rejecting `pull` invocation stops the pull loop silently and
permanently: the Reader state is exactly what it was (no stored error, not
Closed, not Errored, reads unaffected, the rejection reason dropped), no
later invocation runs, and a `read()` finding no buffered data then
suspends. -/
theorem pull_rejection_silent_and_permanent (s : RState) (invs : List PullInv)
    (r : JSVal) (hp : s.pullActive = true) :
    pullLoop ({ acts := [], resolves := false, reason := r } :: invs) s = s ∧
    (s.q.buf = [] → s.q.closed = false → readStep s = (.blocked, s)) := by
  constructor
  · simp [pullLoop, hp, runInv, runActs]
  · intro h1 h2
    simp [readStep, h1, h2]

/-- Witness for C10 on a fresh pulling Reader. -/
theorem pull_rejection_silent_and_permanent_witness :
    pullLoop [{ acts := [], resolves := false, reason := .str "pull failed" }]
        (initR 2 true) = initR 2 true ∧
    readStep (initR 2 true) = (.blocked, initR 2 true) := by
  have h := pull_rejection_silent_and_permanent (initR 2 true) []
    (.str "pull failed") rfl
  exact ⟨h.1, h.2 rfl rfl⟩

theorem stepW_call_pending (w : WState) (c : JSVal) (hf : w.inFlight.isSome = true) :
    stepW w (.call c)
      = { w with nextId := w.nextId + 1, waiting := w.waiting ++ [(w.nextId, c)] } := by
  simp [stepW, hf]

theorem stepW_call_idle (w : WState) (c : JSVal) (hf : w.inFlight = none)
    (hcl : w.isClosed = false) (herr : w.isError = false) :
    stepW w (.call c)
      = { w with
            nextId := w.nextId + 1
            sinkLog := w.sinkLog ++ [c]
            inFlight := some (w.nextId, c) } := by
  simp [stepW, hf, writeImpl, hcl, herr]

theorem stepW_settle_none (w : WState) (ok : Bool) (r : JSVal)
    (hf : w.inFlight = none) : stepW w (.settle ok r) = w := by
  simp [stepW, hf]

theorem stepW_settle_empty (w : WState) (ok : Bool) (r : JSVal) (i : Nat) (c : JSVal)
    (hf : w.inFlight = some (i, c)) (hw : w.waiting = []) :
    stepW w (.settle ok r)
      = { w with inFlight := none, settled := w.settled ++ [(i, outc ok r)] } := by
  simp [stepW, hf, hw, outc]

theorem stepW_settle_release (w : WState) (ok : Bool) (r : JSVal) (i : Nat)
    (c : JSVal) (i2 : Nat) (c2 : JSVal) (rest : List (Nat × JSVal))
    (hf : w.inFlight = some (i, c)) (hw : w.waiting = (i2, c2) :: rest)
    (hcl : w.isClosed = false) (herr : w.isError = false) :
    stepW w (.settle ok r)
      = { w with
            inFlight := some (i2, c2)
            waiting := rest
            settled := w.settled ++ [(i, outc ok r)]
            sinkLog := w.sinkLog ++ [c2] } := by
  simp [stepW, hf, hw, writeImpl, hcl, herr, outc]

theorem runW_append (t1 t2 : List WEv) : ∀ w, runW (t1 ++ t2) w = runW t2 (runW t1 w) := by
  induction t1 with
  | nil => intro w; rfl
  | cons e rest ih => intro w; simp [runW, ih]

theorem runW_calls_queue (xs : List JSVal) : ∀ w : WState, w.inFlight.isSome = true →
    runW (xs.map .call) w
      = { w with
            waiting := w.waiting ++ List.enumFrom w.nextId xs
            nextId := w.nextId + xs.length } := by
  induction xs with
  | nil => intro w h; simp [runW]
  | cons x xs ih =>
    intro w h
    rw [List.map_cons]
    show runW (xs.map .call) (stepW w (.call x)) = _
    rw [stepW_call_pending w x h, ih _ (by simpa using h)]
    simp [List.enumFrom]
    omega

/-- One Writer event preserves openness, leaves no waiters behind an idle
Writer, appends called chunks FIFO, and invokes the sink at most once. -/
theorem stepW_facts (w : WState) (e : WEv)
    (h1 : w.isClosed = false) (h2 : w.isError = false)
    (h3 : w.inFlight = none → w.waiting = []) :
    (stepW w e).isClosed = false ∧ (stepW w e).isError = false ∧
    ((stepW w e).inFlight = none → (stepW w e).waiting = []) ∧
    (stepW w e).sinkLog ++ ((stepW w e).waiting.map Prod.snd)
      = w.sinkLog ++ (w.waiting.map Prod.snd) ++ calledChunks [e] ∧
    (stepW w e).sinkLog.length + nfW w
      ≤ w.sinkLog.length + nfW (stepW w e) + settleCount [e] := by
  cases e with
  | call c =>
    by_cases hf : w.inFlight.isSome = true
    · rw [stepW_call_pending w c hf]
      refine ⟨h1, h2, ?_, ?_, ?_⟩
      · intro hn
        exfalso
        have hn' : w.inFlight = none := hn
        rw [hn'] at hf
        simp at hf
      · simp [calledChunks]
      · simp [nfW, settleCount]
    · have hfn : w.inFlight = none :=
        Option.not_isSome_iff_eq_none.mp (by simpa using hf)
      have hwn := h3 hfn
      rw [stepW_call_idle w c hfn h1 h2]
      refine ⟨h1, h2, by intro hn; exact absurd hn (by simp), ?_, ?_⟩
      · simp [calledChunks, hwn]
      · simp [nfW, settleCount, hfn]
  | settle ok r =>
    rcases hf : w.inFlight with _ | ⟨i, c⟩
    · rw [stepW_settle_none w ok r hf]
      exact ⟨h1, h2, h3, by simp [calledChunks], by simp [settleCount]⟩
    · rcases hw : w.waiting with _ | ⟨⟨i2, c2⟩, rest2⟩
      · rw [stepW_settle_empty w ok r i c hf hw]
        refine ⟨h1, h2, by intro _; simp [hw], ?_, ?_⟩
        · simp [calledChunks, hw]
        · simp [nfW, settleCount, hf]
      · rw [stepW_settle_release w ok r i c i2 c2 rest2 hf hw h1 h2]
        refine ⟨h1, h2, by intro hn; exact absurd hn (by simp), ?_, ?_⟩
        · simp [calledChunks, hw]
        · simp [nfW, settleCount, hf]

/-- FIFO invariant of the Writer's serialization queue, over arbitrary
interleavings of `write` calls and sink settlements: the Writer stays
open, an idle Writer has an empty wait queue, the sink log followed by
the still-queued chunks is exactly the called chunks in call order, and
the number of sink invocations never exceeds the settlements plus one
(at most one sink write in flight). -/
theorem runW_fifo_invariant (tr : List WEv) : ∀ w : WState,
    w.isClosed = false → w.isError = false →
    (w.inFlight = none → w.waiting = []) →
    (runW tr w).isClosed = false ∧ (runW tr w).isError = false ∧
    ((runW tr w).inFlight = none → (runW tr w).waiting = []) ∧
    (runW tr w).sinkLog ++ ((runW tr w).waiting.map Prod.snd)
      = w.sinkLog ++ (w.waiting.map Prod.snd) ++ calledChunks tr ∧
    (runW tr w).sinkLog.length + nfW w
      ≤ w.sinkLog.length + nfW (runW tr w) + settleCount tr := by
  induction tr with
  | nil =>
    intro w h1 h2 h3
    exact ⟨h1, h2, h3, by simp [runW, calledChunks], by simp [runW, settleCount]⟩
  | cons e rest ih =>
    intro w h1 h2 h3
    have hs := stepW_facts w e h1 h2 h3
    have hres := ih (stepW w e) hs.1 hs.2.1 hs.2.2.1
    simp only [runW]
    refine ⟨hres.1, hres.2.1, hres.2.2.1, ?_, ?_⟩
    · rw [hres.2.2.2.1, hs.2.2.2.1]
      cases e <;> simp [calledChunks]
    · have g1 := hres.2.2.2.2
      have g2 := hs.2.2.2.2
      cases e with
      | call c =>
        simp only [settleCount] at g1 g2 ⊢
        omega
      | settle ok r =>
        simp only [settleCount] at g1 g2 ⊢
        omega

theorem runW_drain (pend : List (Nat × JSVal)) :
    ∀ (os : List (Bool × JSVal)) (w : WState) (i : Nat) (c : JSVal),
    w.isClosed = false → w.isError = false →
    w.inFlight = some (i, c) → w.waiting = pend →
    os.length = pend.length + 1 →
    runW (os.map fun o => .settle o.1 o.2) w
      = { w with
            inFlight := none
            waiting := []
            settled := w.settled
              ++ List.zipWith (fun p o => (p.1, outc o.1 o.2)) ((i, c) :: pend) os
            sinkLog := w.sinkLog ++ pend.map Prod.snd } := by
  induction pend with
  | nil =>
    intro os w i c h1 h2 hf hw hlen
    rcases os with _ | ⟨o, os'⟩
    · simp at hlen
    rcases os' with _ | ⟨o2, os''⟩
    · show runW [] (stepW w (.settle o.1 o.2)) = _
      rw [stepW_settle_empty w o.1 o.2 i c hf hw]
      simp [runW, hw]
    · simp at hlen
  | cons pc pend' ih =>
    intro os w i c h1 h2 hf hw hlen
    rcases os with _ | ⟨o, os'⟩
    · simp at hlen
    obtain ⟨i2, c2⟩ := pc
    show runW (os'.map fun o => .settle o.1 o.2) (stepW w (.settle o.1 o.2)) = _
    rw [stepW_settle_release w o.1 o.2 i c i2 c2 pend' hf hw h1 h2]
    have hih := ih os'
      { w with
        inFlight := some (i2, c2)
        waiting := pend'
        settled := w.settled ++ [(i, outc o.1 o.2)]
        sinkLog := w.sinkLog ++ [c2] }
      i2 c2 h1 h2 rfl rfl (by simpa using hlen)
    rw [hih]
    simp


/-- C3: the Writer serializes concurrent `write` calls.  Over every
interleaving of `write` calls and sink settlements (the only events the
write path has): the sink receives chunks exactly in call order (the sink
log followed by the still-queued chunks is the call sequence), at most one
sink write is in flight at a time (sink invocations never exceed
settlements plus one), and an idle Writer has no blocked callers.  For a
batch of calls each settled in turn (some possibly failing), every call
reaches the sink in call order, each caller is settled with its own sink
outcome in call order — a failure rejects only its own caller — and the
queue fully drains. -/
theorem writer_serializes_concurrent_writes
    (tr : List WEv) (x0 : JSVal) (xs : List JSVal) (os : List (Bool × JSVal))
    (hlen : os.length = xs.length + 1) :
    ((runW tr initW).sinkLog ++ ((runW tr initW).waiting.map Prod.snd)
        = calledChunks tr) ∧
    ((runW tr initW).sinkLog.length ≤ settleCount tr + 1) ∧
    ((runW tr initW).inFlight = none → (runW tr initW).waiting = []) ∧
    (runW (((x0 :: xs).map WEv.call) ++ (os.map fun o => WEv.settle o.1 o.2)) initW
      = { initW with
            nextId := xs.length + 1
            settled := List.zipWith (fun p o => (p.1, outc o.1 o.2))
              ((0, x0) :: List.enumFrom 1 xs) os
            sinkLog := x0 :: xs }) := by
  have hinv := runW_fifo_invariant tr initW rfl rfl (fun _ => rfl)
  refine ⟨?_, ?_, hinv.2.2.1, ?_⟩
  · have := hinv.2.2.2.1
    simpa [initW] using this
  · have hle := hinv.2.2.2.2
    have hnf : nfW (runW tr initW) ≤ 1 := by
      unfold nfW
      split <;> simp
    have hz1 : initW.sinkLog.length = 0 := rfl
    have hz2 : nfW initW = 0 := rfl
    rw [hz1, hz2] at hle
    omega
  · rw [runW_append]
    have hcall : runW ((x0 :: xs).map .call) initW
        = { initW with
              nextId := xs.length + 1
              inFlight := some (0, x0)
              sinkLog := [x0]
              waiting := List.enumFrom 1 xs } := by
      rw [List.map_cons]
      show runW (xs.map .call) (stepW initW (.call x0)) = _
      rw [stepW_call_idle initW x0 rfl rfl rfl]
      rw [runW_calls_queue xs _ (by simp)]
      simp [initW, Nat.add_comm]
    rw [hcall]
    have hdrain := runW_drain (List.enumFrom 1 xs) os
      { initW with
          nextId := xs.length + 1
          inFlight := some (0, x0)
          sinkLog := [x0]
          waiting := List.enumFrom 1 xs }
      0 x0 rfl rfl rfl rfl (by simpa using hlen)
    rw [hdrain]
    simp [initW]

/-- Witness for C3: three concurrent writes, the second sink write fails;
the sink still sees all three chunks in call order, each caller got its
own outcome, and the queue drained. -/
theorem writer_serializes_concurrent_writes_witness :
    (runW ([JSVal.num 1, JSVal.num 2, JSVal.num 3].map WEv.call
        ++ ([(true, JSVal.undef), (false, JSVal.str "sink failed"),
             (true, JSVal.undef)].map fun o => WEv.settle o.1 o.2)) initW
      = { initW with
            nextId := 3
            settled := [(0, .fulfilled), (1, .rejectedW (.str "sink failed")),
              (2, .fulfilled)]
            sinkLog := [.num 1, .num 2, .num 3] }) ∧
    (runW [] initW).sinkLog ++ ((runW [] initW).waiting.map Prod.snd)
      = calledChunks [] := by
  have h := writer_serializes_concurrent_writes [] (.num 1) [.num 2, .num 3]
    [(true, .undef), (false, .str "sink failed"), (true, .undef)] (by decide)
  refine ⟨?_, h.1⟩
  have h4 := h.2.2.2
  rw [h4]
  rfl

/-- C8 (counterexample): after `abort(undefined)` the next `write` rejects
with a fresh generic `Error("Writer is aborted")`, not with the stored
reason `undefined`: the stored reason is nullish, so `this.error ?? new
Error(...)` replaces it. -/
theorem abort_with_undefined_rejects_generic_error :
    (wabort initW .undef).2.error = .undef ∧
    (stepW (wabort initW .undef).2 (.call (.num 1))).settled
      = [(0, .rejectedW (.errMsg "Writer is aborted"))] := by decide

/-- C8 (amended): `abort(reason)` marks the Writer Aborted with the stored
reason, invokes the sink `abort` hook with it, and returns the reason;
every `write` call made after the abort — whether run directly or released
from the wait queue, both of which go through `writeImpl` — rejects with
exactly the stored reason, provided the Writer was not already Closed
(the closed check precedes the aborted check) and the reason is not
nullish (a nullish stored reason is replaced by a generic
`Error("Writer is aborted")`). -/
theorem abort_marks_and_rejects_later_writes (w : WState) (r c : JSVal)
    (hcl : w.isClosed = false) (hnn : r ≠ .undef ∧ r ≠ .null) :
    (wabort w r).1 = r ∧
    (wabort w r).2.isError = true ∧
    (wabort w r).2.error = r ∧
    (wabort w r).2.abortLog = w.abortLog ++ [r] ∧
    (∀ i : Nat, writeImpl (wabort w r).2 i c
      = { (wabort w r).2 with
            settled := (wabort w r).2.settled ++ [(i, .rejectedW r)] }) := by
  refine ⟨rfl, rfl, rfl, rfl, ?_⟩
  intro i
  have hor : orAborted r = r := by
    obtain ⟨h1, h2⟩ := hnn
    cases r <;> simp_all [orAborted]
  simp [writeImpl, wabort, hcl, hor]

/-- Witness for C8 (amended) with a concrete non-nullish reason. -/
theorem abort_marks_and_rejects_later_writes_witness :
    (wabort initW (.str "boom")).1 = .str "boom" ∧
    (wabort initW (.str "boom")).2.abortLog = [.str "boom"] ∧
    writeImpl (wabort initW (.str "boom")).2 0 (.num 5)
      = { (wabort initW (.str "boom")).2 with
            settled := [(0, .rejectedW (.str "boom"))] } := by
  have h := abort_marks_and_rejects_later_writes initW (.str "boom") (.num 5)
    rfl (by decide)
  exact ⟨h.1, h.2.2.2.1, h.2.2.2.2 0⟩

/-- C4: `pipeTo` loops read-then-awaited-write, so the sink receives
exactly the values the reads delivered, in input order (each write issued
only after the previous one settled — the loop is sequential); when the
reads end with done it calls `writer.close()` and returns; when a read
rejects it calls `writer.abort(error)` and rethrows the error, the
destination retaining everything written before the error. -/
theorem pipeTo_writes_in_order_shape (fuel : Nat) :
    ∀ (sys : Sy) (w : WState) (sink : JSVal → Bool × JSVal),
    w.isClosed = false → w.isError = false → w.inFlight = none → w.waiting = [] →
    (∀ v, (sink v).1 = true) →
    ((readTrace fuel sys).2 = .finished →
      (pipeToRun fuel sys sink w).1 = .finishedP ∧
      (pipeToRun fuel sys sink w).2.2.sinkLog = w.sinkLog ++ (readTrace fuel sys).1 ∧
      (pipeToRun fuel sys sink w).2.2.closeLog = w.closeLog + 1 ∧
      (pipeToRun fuel sys sink w).2.2.abortLog = w.abortLog) ∧
    (∀ e, (readTrace fuel sys).2 = .errored e →
      (pipeToRun fuel sys sink w).1 = .thrown e ∧
      (pipeToRun fuel sys sink w).2.2.sinkLog = w.sinkLog ++ (readTrace fuel sys).1 ∧
      (pipeToRun fuel sys sink w).2.2.abortLog = w.abortLog ++ [e] ∧
      (pipeToRun fuel sys sink w).2.2.closeLog = w.closeLog) := by
  induction fuel with
  | zero =>
    intro sys w sink h1 h2 h3 h4 hsink
    exact ⟨fun h => by simp [readTrace] at h, fun e h => by simp [readTrace] at h⟩
  | succ fuel ih =>
    intro sys w sink h1 h2 h3 h4 hsink
    rcases hread : sysRead sys with ⟨r, sys'⟩
    cases r with
    | value v =>
      have hok : (sink v).1 = true := hsink v
      rcases hsv : sink v with ⟨ok, rr⟩
      rw [hsv] at hok
      subst hok
      have hw1 : stepW w (.call v)
          = { w with
                nextId := w.nextId + 1
                sinkLog := w.sinkLog ++ [v]
                inFlight := some (w.nextId, v) } := stepW_call_idle w v h3 h1 h2
      have hw2 : stepW (stepW w (.call v)) (.settle true rr)
          = { w with
                nextId := w.nextId + 1
                sinkLog := w.sinkLog ++ [v]
                inFlight := none
                settled := w.settled ++ [(w.nextId, outc true rr)] } := by
        rw [hw1]
        rw [stepW_settle_empty _ true rr w.nextId v rfl (by exact h4)]
      have hrt : readTrace (fuel + 1) sys
          = (v :: (readTrace fuel sys').1, (readTrace fuel sys').2) := by
        simp [readTrace, hread]
      have hpt : pipeToRun (fuel + 1) sys sink w
          = pipeToRun fuel sys' sink (stepW (stepW w (.call v)) (.settle true rr)) := by
        simp [pipeToRun, hread, hsv]
      have hres := ih sys' (stepW (stepW w (.call v)) (.settle true rr)) sink
        (by rw [hw2]; exact h1) (by rw [hw2]; exact h2) (by rw [hw2])
        (by rw [hw2]; exact h4) hsink
      rw [hrt, hpt]
      constructor
      · intro hfin
        obtain ⟨g1, g2, g3, g4⟩ := hres.1 hfin
        refine ⟨g1, ?_, ?_, ?_⟩
        · rw [g2, hw2]
          simp
        · rw [g3, hw2]
        · rw [g4, hw2]
      · intro e herr
        obtain ⟨g1, g2, g3, g4⟩ := hres.2 e herr
        refine ⟨g1, ?_, ?_, ?_⟩
        · rw [g2, hw2]
          simp
        · rw [g3, hw2]
        · rw [g4, hw2]
    | finished =>
      have hrt : readTrace (fuel + 1) sys = ([], .finished) := by
        simp [readTrace, hread]
      have hpt : pipeToRun (fuel + 1) sys sink w = (.finishedP, sys', wclose w) := by
        simp [pipeToRun, hread]
      rw [hrt, hpt]
      exact ⟨fun _ => ⟨rfl, by simp [wclose], rfl, rfl⟩, fun e h => by simp at h⟩
    | errored e0 =>
      have hrt : readTrace (fuel + 1) sys = ([], .errored e0) := by
        simp [readTrace, hread]
      have hpt : pipeToRun (fuel + 1) sys sink w
          = (.thrown e0, sys', (wabort w e0).2) := by
        simp [pipeToRun, hread]
      rw [hrt, hpt]
      refine ⟨fun h => by simp at h, fun e h => ?_⟩
      have he : e0 = e := by
        simpa using h
      subst he
      exact ⟨rfl, by simp [wabort], rfl, rfl⟩
    | blocked =>
      have hrt : readTrace (fuel + 1) sys = ([], .blocked) := by
        simp [readTrace, hread]
      rw [hrt]
      exact ⟨fun h => by simp at h, fun e h => by simp at h⟩

/-- Witness for C4: a Reader of 1, 2 then close pipes both values into an
always-resolving sink and closes the Writer; a Reader that errors after an
enqueue makes `pipeTo` abort the Writer with that error and rethrow it. -/
theorem pipeTo_writes_in_order_shape_witness :
    ((pipeToRun 5 (initSys 2 [.enq (.num 1), .enq (.num 2), .closeA])
        (fun _ => (true, .undef)) initW).1 = .finishedP ∧
      (pipeToRun 5 (initSys 2 [.enq (.num 1), .enq (.num 2), .closeA])
        (fun _ => (true, .undef)) initW).2.2.sinkLog
        = initW.sinkLog ++ (readTrace 5 (initSys 2 [.enq (.num 1), .enq (.num 2), .closeA])).1 ∧
      (pipeToRun 5 (initSys 2 [.enq (.num 1), .enq (.num 2), .closeA])
        (fun _ => (true, .undef)) initW).2.2.closeLog = initW.closeLog + 1 ∧
      (pipeToRun 5 (initSys 2 [.enq (.num 1), .enq (.num 2), .closeA])
        (fun _ => (true, .undef)) initW).2.2.abortLog = initW.abortLog) ∧
    ((pipeToRun 5 (initSys 2 [.enq (.num 1), .errorA (.str "X")])
        (fun _ => (true, .undef)) initW).1 = .thrown (.str "X") ∧
      (pipeToRun 5 (initSys 2 [.enq (.num 1), .errorA (.str "X")])
        (fun _ => (true, .undef)) initW).2.2.abortLog = initW.abortLog ++ [.str "X"]) :=
  ⟨(pipeTo_writes_in_order_shape 5 (initSys 2 [.enq (.num 1), .enq (.num 2), .closeA])
      initW (fun _ => (true, .undef)) rfl rfl rfl rfl (fun _ => rfl)).1 (by decide),
   ⟨((pipeTo_writes_in_order_shape 5 (initSys 2 [.enq (.num 1), .errorA (.str "X")])
      initW (fun _ => (true, .undef)) rfl rfl rfl rfl (fun _ => rfl)).2 (.str "X")
      (by decide)).1,
    ((pipeTo_writes_in_order_shape 5 (initSys 2 [.enq (.num 1), .errorA (.str "X")])
      initW (fun _ => (true, .undef)) rfl rfl rfl rfl (fun _ => rfl)).2 (.str "X")
      (by decide)).2.2.1⟩⟩

/-- C9: the Transformer wires its composed Writer's hooks to its Reader's
controller — `close()` runs the user flush and then `controller.close()`
(pushing `EOF` and closing the Reader), and `abort(reason)` is
`controller.error(reason)` — and a Reader of 1, 2, 3 piped through two
chained parenthesis-wrapping Transformers into a collecting Writer makes
the Writer receive "((1))", "((2))", "((3))" and then close. -/
theorem transformer_wiring_and_two_stage_pipeline (fl : List PAct) (u u' : RState)
    (hfl : runActs fl u = .resolved u') (hcl : u'.closed = false)
    (hqc : u'.q.closed = false) (hroom : u'.q.buf.length < u'.q.capacity) :
    (transformerClose fl u
      = .resolved { u' with
          pullActive := false
          closed := true
          q := { capacity := u'.q.capacity, buf := u'.q.buf ++ [.eofC]
                 closed := true } }) ∧
    (∀ (t : RState) (r : JSVal), transformerAbort t r = ctrlError t r) ∧
    ((twoParenPipeline.map fun p => (p.1, p.2.2.sinkLog, p.2.2.closeLog))
      = some (.finishedP,
          [JSVal.str "((1))", .str "((2))", .str "((3))"], 1)) := by
  refine ⟨?_, fun t r => rfl, by decide⟩
  simp [transformerClose, hfl, ctrlClose, hcl, BQueue.push, hqc, hroom, BQueue.closeQ]

/-- Witness for C9 with a flush that enqueues one trailing item. -/
theorem transformer_wiring_and_two_stage_pipeline_witness :
    (transformerClose [.enq (.num 9)] (initR 4 false)
      = .resolved { closed := true, isError := false, error := .undef
                    pullActive := false
                    q := { capacity := 4, buf := [.val (.num 9), .eofC]
                           closed := true } }) ∧
    ((twoParenPipeline.map fun p => (p.1, p.2.2.sinkLog, p.2.2.closeLog))
      = some (.finishedP,
          [JSVal.str "((1))", .str "((2))", .str "((3))"], 1)) := by
  have h := transformer_wiring_and_two_stage_pipeline [.enq (.num 9)] (initR 4 false)
    { initR 4 false with q := { capacity := 4, buf := [.val (.num 9)], closed := false } }
    (by decide) rfl rfl (by decide)
  exact ⟨h.1, h.2.2⟩

end SimpleStreams
